import Mathlib

/-!
Verification of the data-access and aggregation core of the Qubic analytics
dashboard (`src/services/qubic.ts`).  The TypeScript functions are shallowly
embedded as executable Lean definitions: JavaScript `BigInt` arithmetic
becomes `Int`, JavaScript `number` arithmetic (IEEE doubles produced by
`Number(x) / 1000`) is idealized as exact rationals `ℚ`, JavaScript objects
and `Map`s keyed by strings become association lists in insertion order
(which is the iteration order of both for non-numeric string keys), and
thrown exceptions become `Option`/`Except` values.
-/

namespace Qubic

/-- The `Transaction` interface of `qubic.ts` (lines 287-299), restricted to the
fields the analytics routines read.  `amount` arrives as a decimal string and
is parsed with `BigInt`; it can be `undefined`/`null`, modelled as `none`.
`moneyFlew` is the optional settlement flag.  The opaque payload fields
(`inputType`, `inputHex`, `signatureHex`, `txId`, `timestamp`) are never read
by the aggregation code and are omitted. -/
structure Transaction where
  sourceId : String
  destId : String
  amount : Option Int
  tickNumber : Nat
  moneyFlew : Option Bool
deriving DecidableEq, Repr

/-! ## Wallet aggregation (`aggregateByWallet`, qubic.ts lines 362-392)

The `WalletAggregation` object maps a wallet id to `{outgoing, incoming}`
totals (both `bigint`).  A JavaScript object with non-numeric string keys
iterates in insertion order, so it is modelled as an association list
`List (String × Int × Int)` of `(wallet, outgoing, incoming)` entries in
insertion order. -/

/-- Lookup of `wallets[k]`: the `(outgoing, incoming)` pair stored under key
`k`, or `none` when the key is absent. -/
def findEntry : List (String × Int × Int) → String → Option (Int × Int)
  | [], _ => none
  | e :: es, k => if e.1 = k then some (e.2.1, e.2.2) else findEntry es k

/-- Whether the object has an entry for key `k` (the `!wallets[k]` check). -/
def hasKey (ws : List (String × Int × Int)) (k : String) : Bool :=
  (findEntry ws k).isSome

/-- Lines 377-382: `if (!wallets[k]) wallets[k] = { outgoing: 0n, incoming: 0n }`.
A fresh key is appended, preserving insertion order. -/
def ensureWallet (ws : List (String × Int × Int)) (k : String) :
    List (String × Int × Int) :=
  if hasKey ws k then ws else ws ++ [(k, 0, 0)]

/-- Line 385: `wallets[sourceId].outgoing += amount`. -/
def addOutgoing : List (String × Int × Int) → String → Int → List (String × Int × Int)
  | [], _, _ => []
  | e :: es, k, a =>
      if e.1 = k then (e.1, e.2.1 + a, e.2.2) :: addOutgoing es k a
      else e :: addOutgoing es k a

/-- Line 388: `wallets[destId].incoming += amount`. -/
def addIncoming : List (String × Int × Int) → String → Int → List (String × Int × Int)
  | [], _, _ => []
  | e :: es, k, a =>
      if e.1 = k then (e.1, e.2.1, e.2.2 + a) :: addIncoming es k a
      else e :: addIncoming es k a

/-- One iteration of the `transactions.forEach` body of `aggregateByWallet`
(lines 365-389): skip when `moneyFlew === false` or the amount is missing,
otherwise zero-initialize both endpoints and accumulate the amount once into
the source's outgoing and once into the destination's incoming total. -/
def aggStep (ws : List (String × Int × Int)) (tx : Transaction) :
    List (String × Int × Int) :=
  if tx.moneyFlew = some false then ws
  else
    match tx.amount with
    | none => ws
    | some amount =>
        addIncoming
          (addOutgoing
            (ensureWallet (ensureWallet ws tx.sourceId) tx.destId)
            tx.sourceId amount)
          tx.destId amount

/-- The function `aggregateByWallet` (lines 362-392): fold the transaction
list into the wallet aggregation, starting from the empty object. -/
def aggregateByWallet (transactions : List Transaction) :
    List (String × Int × Int) :=
  transactions.foldl aggStep []

/-- Outgoing total recorded for wallet `w` (0 when the wallet is absent). -/
def getOutgoing (ws : List (String × Int × Int)) (w : String) : Int :=
  match findEntry ws w with
  | some p => p.1
  | none => 0

/-- Incoming total recorded for wallet `w` (0 when the wallet is absent). -/
def getIncoming (ws : List (String × Int × Int)) (w : String) : Int :=
  match findEntry ws w with
  | some p => p.2
  | none => 0

/-- Whether a transaction is counted by the aggregation: `moneyFlew` is not
`=== false` and the amount is present. -/
def countsTx (tx : Transaction) : Prop :=
  tx.moneyFlew ≠ some false ∧ tx.amount ≠ none

instance : DecidablePred countsTx := fun tx => by
  unfold countsTx; infer_instance

/-- Specification-side total: the sum, over the counted transactions whose
source is `w`, of their amounts (exact integers, added exactly once each). -/
def specOutgoingTotal (w : String) : List Transaction → Int
  | [] => 0
  | tx :: txs =>
      (if countsTx tx ∧ tx.sourceId = w then tx.amount.getD 0 else 0) +
        specOutgoingTotal w txs

/-- Specification-side total: the sum, over the counted transactions whose
destination is `w`, of their amounts. -/
def specIncomingTotal (w : String) : List Transaction → Int
  | [] => 0
  | tx :: txs =>
      (if countsTx tx ∧ tx.destId = w then tx.amount.getD 0 else 0) +
        specIncomingTotal w txs

/-- Specification-side membership: `w` is an endpoint of some counted
transaction. -/
def specParticipates (w : String) : List Transaction → Prop
  | [] => False
  | tx :: txs =>
      (countsTx tx ∧ (tx.sourceId = w ∨ tx.destId = w)) ∨ specParticipates w txs

instance (w : String) : DecidablePred (specParticipates w) := fun txs => by
  induction txs with
  | nil => exact .isFalse (fun h => h)
  | cons tx txs ih => unfold specParticipates; exact @instDecidableOr _ _ _ ih

/-- The concrete three-transaction scenario of the spec's end-to-end test:
A→B 500 settled, B→C 200 settled, C→A 1000 not settled. -/
def scenarioTxs : List Transaction :=
  [⟨"A", "B", some 500, 1, some true⟩,
   ⟨"B", "C", some 200, 1, some true⟩,
   ⟨"C", "A", some 1000, 1, some false⟩]

/-- The wallet aggregate the spec's end-to-end scenario asserts (A's incoming
claimed to be 200). -/
def scenarioClaimedAggregate : List (String × Int × Int) :=
  [("A", 500, 200), ("B", 200, 500), ("C", 0, 200)]

/-! ## Stable descending sort

`Array.prototype.sort` with a numeric comparator `(a, b) => key(b) - key(a)`
is required (since ES2019) to be a stable sort producing a permutation of the
input ordered descending by `key`.  A stable descending sort is extensionally
unique, so it is modelled by insertion sort: an element is inserted in front
of the first already-placed element whose key it is greater than or equal to
(elements placed earlier came later in the input, so equal keys keep input
order). -/

/-- Insert `x` in front of the first element whose key is at most `key x`. -/
def insertDescBy {α β : Type} [LinearOrder β] (key : α → β) (x : α) :
    List α → List α
  | [] => [x]
  | y :: ys => if key y ≤ key x then x :: y :: ys else y :: insertDescBy key x ys

/-- Stable sort, descending by `key`. -/
def sortDescBy {α β : Type} [LinearOrder β] (key : α → β) (l : List α) : List α :=
  l.foldr (insertDescBy key) []

/-! ## Whale identification (`identifyWhales`, qubic.ts lines 395-425) -/

/-- The `WhaleData` record (lines 306-311).  `buys`/`sells`/`net` are
JavaScript numbers obtained from `Number(bigint) / 1000`, idealized as exact
rationals. -/
structure WhaleData where
  wallet : String
  buys : ℚ
  sells : ℚ
  net : ℚ
deriving DecidableEq, Repr

/-- Lines 400-411: one `Object.entries` pair mapped to a `WhaleData`:
`sells` is `outgoing / 1000`, `buys` is `incoming / 1000`,
`net = incoming - outgoing` in display units. -/
def toWhale (e : String × Int × Int) : WhaleData :=
  ⟨e.1, (e.2.2 : ℚ) / 1000, (e.2.1 : ℚ) / 1000,
    (e.2.2 : ℚ) / 1000 - (e.2.1 : ℚ) / 1000⟩

/-- The sort key of lines 413-417: `Math.abs(buys + sells)`. -/
def volume (w : WhaleData) : ℚ := |w.buys + w.sells|

/-- Lines 421-424: `whalesArray.map((whale, idx) => { ...whale, wallet:
`Whale #(idx+1)` })`, with `i` the running display rank. -/
def relabelFrom (i : Nat) : List WhaleData → List WhaleData
  | [] => []
  | w :: ws =>
      ⟨"Whale #" ++ toString (i + 1), w.buys, w.sells, w.net⟩ :: relabelFrom (i + 1) ws

/-- The function `identifyWhales` (lines 395-425): map the aggregation
entries to `WhaleData`, sort descending by absolute volume (stably), take the
first `topN` (the source's default for `topN` is 6), and replace each wallet
id with its rank label. -/
def identifyWhales (walletAggregation : List (String × Int × Int)) (topN : Nat) :
    List WhaleData :=
  relabelFrom 0 ((sortDescBy volume (walletAggregation.map toWhale)).take topN)

/-! ## Token distribution (`getTokenDistribution`, qubic.ts lines 593-683) -/

/-- A `TokenDistribution` tier record (lines 533-538). -/
structure TokenDistribution where
  tier : String
  percentage : ℚ
  walletCount : Nat
  totalAmount : Int
deriving DecidableEq, Repr

/-- `walletBalances.get(k) || 0n` (lines 619, 622): the balance stored for
`k`, or 0 when absent (0n is falsy, so `|| 0n` maps both `undefined` and `0n`
to `0n`). -/
def lookupBal : List (String × Int) → String → Int
  | [], _ => 0
  | e :: es, k => if e.1 = k then e.2 else lookupBal es k

/-- `walletBalances.set(k, v)`: a `Map` keeps the key's original insertion
position on overwrite and appends a fresh key. -/
def setBal : List (String × Int) → String → Int → List (String × Int)
  | [], k, v => [(k, v)]
  | e :: es, k, v => if e.1 = k then (k, v) :: es else e :: setBal es k v

/-- One transaction of the balance-replay loop (lines 611-626): skip
`moneyFlew === false`; `BigInt(undefined)` throws (`none`); otherwise credit
the destination, then debit the source only when its running balance covers
the amount (the clamp that keeps balances non-negative). -/
def replayTx (bal : List (String × Int)) (tx : Transaction) :
    Option (List (String × Int)) :=
  if tx.moneyFlew = some false then some bal
  else
    match tx.amount with
    | none => none
    | some amount =>
        let bal1 := setBal bal tx.destId (lookupBal bal tx.destId + amount)
        let sourceBalance := lookupBal bal1 tx.sourceId
        if amount ≤ sourceBalance then
          some (setBal bal1 tx.sourceId (sourceBalance - amount))
        else some bal1

/-- Replay of a transaction batch from the given starting balances. -/
def replayBalancesFrom (bal : List (String × Int)) :
    List Transaction → Option (List (String × Int))
  | [] => some bal
  | tx :: txs =>
      match replayTx bal tx with
      | none => none
      | some b => replayBalancesFrom b txs

/-- The wallet-balance map `getTokenDistribution` reconstructs from a
transaction window (starting from the empty `Map`). -/
def replayBalances (txs : List Transaction) : Option (List (String × Int)) :=
  replayBalancesFrom [] txs

/-- Lines 648-651: `Number((sum * 10000n) / totalSupply) / 100` — the tier
percentage at integer precision, converted to two decimal places only at the
end.  `Int` division truncates toward zero exactly as `bigint` division. -/
def calculatePercentage (totalSupply : Int) (wallets : List (String × Int)) : ℚ :=
  ((((wallets.map (fun e => e.2)).sum * 10000) / totalSupply : Int) : ℚ) / 100

/-- One tier record of lines 653-678. -/
def tierOf (totalSupply : Int) (label : String) (wallets : List (String × Int)) :
    TokenDistribution :=
  ⟨label, calculatePercentage totalSupply wallets, wallets.length,
    (wallets.map (fun e => e.2)).sum⟩

/-- Lines 638-678: the four fixed tiers cut from the ranked wallet list.
`none` models the `RangeError` that `bigint` division by zero throws when the
total supply is 0 (a nonempty map whose balances are all zero); the throw is
caught by the function's `catch`, which returns `[]`. -/
def distributionTiers (sortedWallets : List (String × Int)) :
    Option (List TokenDistribution) :=
  if sortedWallets.length = 0 then some []
  else if (sortedWallets.map (fun e => e.2)).sum = 0 then none
  else
    some
      [tierOf ((sortedWallets.map (fun e => e.2)).sum) "Top 1-3 Wallets"
        (sortedWallets.take 3),
       tierOf ((sortedWallets.map (fun e => e.2)).sum) "Top 4-10 Wallets"
        ((sortedWallets.drop 3).take 7),
       tierOf ((sortedWallets.map (fun e => e.2)).sum) "Top 11-50 Wallets"
        ((sortedWallets.drop 10).take 40),
       tierOf ((sortedWallets.map (fun e => e.2)).sum) "Retail Holders"
        (sortedWallets.drop 50)]

/-- The pure tail of `getTokenDistribution` applied to a reconstructed
balance map: rank by balance (lines 635-636, a stable descending sort by the
comparator `Number(b[1] - a[1])`), cut the tiers, and degrade to `[]` when
the tier computation throws. -/
def tokenDistributionFromBalances (balances : List (String × Int)) :
    List TokenDistribution :=
  match distributionTiers (sortDescBy (fun e => e.2) balances) with
  | some r => r
  | none => []

/-- The property claim C4 asserts of a balance map: the four tiers exist,
their wallet counts and amounts are exactly those of the four slices of the
ranked list, the slices partition the ranked list, and the tier amounts sum
to the total balance fed in. -/
def distPartitionSpec (balances : List (String × Int)) : Prop :=
  (tokenDistributionFromBalances balances).length = 4 ∧
  (tokenDistributionFromBalances balances).map (fun d => d.totalAmount) =
    [(((sortDescBy (fun e => e.2) balances).take 3).map (fun e => e.2)).sum,
     ((((sortDescBy (fun e => e.2) balances).drop 3).take 7).map (fun e => e.2)).sum,
     ((((sortDescBy (fun e => e.2) balances).drop 10).take 40).map (fun e => e.2)).sum,
     (((sortDescBy (fun e => e.2) balances).drop 50).map (fun e => e.2)).sum] ∧
  (tokenDistributionFromBalances balances).map (fun d => d.walletCount) =
    [((sortDescBy (fun e => e.2) balances).take 3).length,
     (((sortDescBy (fun e => e.2) balances).drop 3).take 7).length,
     (((sortDescBy (fun e => e.2) balances).drop 10).take 40).length,
     ((sortDescBy (fun e => e.2) balances).drop 50).length] ∧
  ((sortDescBy (fun e => e.2) balances).take 3 ++
      (((sortDescBy (fun e => e.2) balances).drop 3).take 7 ++
        ((((sortDescBy (fun e => e.2) balances).drop 10).take 40) ++
          (sortDescBy (fun e => e.2) balances).drop 50)) =
    sortDescBy (fun e => e.2) balances) ∧
  ((tokenDistributionFromBalances balances).map (fun d => d.totalAmount)).sum =
    (balances.map (fun e => e.2)).sum

/-- A settled zero-amount transfer: it creates two zero-balance entries, a
nonempty reconstructed map whose total supply is 0. -/
def zeroAmountTx : Transaction := ⟨"A", "B", some 0, 1, some true⟩

/-! ## The rate-limiting queue (`RequestQueue`, qubic.ts lines 19-63)

JavaScript is single threaded: `enqueue` appends the task and starts
`process()` only when idle, and `process()` runs tasks strictly one at a
time, in queue (submission) order.  Before dispatching a task it reads
`timeSince = Date.now() - lastRequestTime` and sleeps `MIN_DELAY - timeSince`
when that is positive, then stamps `lastRequestTime` and awaits the task, so
the dispatch start time is `if ready - last < MIN_DELAY then last + MIN_DELAY
else ready`, where `ready` is the later of the task's arrival in the queue
and the completion of the previous task (the queue idles until an arrival,
and `lastRequestTime` survives idle periods).

The model `runQueue free last tasks` replays this loop over the tasks in
submission order: each task is `(arrival, duration, payload)`; `free` is when
the processor is next available; `last` is `lastRequestTime`.  It returns the
tasks with their dispatch start times, in execution order. -/

/-- The `MIN_DELAY` constant (line 23): 500ms between request dispatches. -/
def MIN_DELAY : Int := 500

/-- Lines 52-57 of `process()`: the dispatch start time of the next task.
`ready = max arrival free` is when the loop reaches the task; when
`ready - lastRequestTime < MIN_DELAY` the loop sleeps the difference, so the
dispatch happens at `lastRequestTime + MIN_DELAY`; otherwise it dispatches at
`ready`. -/
def startOf (free last arrival : Int) : Int :=
  if max arrival free - last < MIN_DELAY then last + MIN_DELAY else max arrival free

/-- Operational replay of `RequestQueue.process` (lines 42-62). -/
def runQueue {α : Type} (free last : Int) :
    List (Int × Nat × α) → List (Int × Nat × α)
  | [] => []
  | (arrival, d, payload) :: rest =>
      (startOf free last arrival, d, payload) ::
        runQueue (startOf free last arrival + (d : Int)) (startOf free last arrival) rest

/-! ## The response cache (`getCached`/`setCache`, qubic.ts lines 70-84) -/

/-- The `CACHE_TTL` constant (line 71): 15 seconds. -/
def CACHE_TTL : Int := 15000

/-- Lookup in the cache `Map`: the `{data, time}` entry stored under `key`. -/
def findCache {α : Type} : List (String × α × Int) → String → Option (α × Int)
  | [], _ => none
  | e :: es, k => if e.1 = k then some (e.2.1, e.2.2) else findCache es k

/-- `cache.delete(key)` (line 78): drop the key's entries. -/
def eraseCache {α : Type} : List (String × α × Int) → String → List (String × α × Int)
  | [], _ => []
  | e :: es, k => if e.1 = k then eraseCache es k else e :: eraseCache es k

/-- The function `setCache` (lines 82-84): `cache.set(key, { data, time:
Date.now() })`, with the clock passed explicitly as `time`. -/
def setCache {α : Type} (cache : List (String × α × Int)) (key : String)
    (data : α) (time : Int) : List (String × α × Int) :=
  match cache with
  | [] => [(key, data, time)]
  | e :: es => if e.1 = key then (key, data, time) :: es else e :: setCache es key data time

/-- The function `getCached` (lines 73-80), with `Date.now()` passed as
`now`: return the entry's data while `now - entry.time < CACHE_TTL` holds,
otherwise delete the key and return `null`.  The result pairs the returned
value with the cache state after the call (the lazy eviction). -/
def getCached {α : Type} (cache : List (String × α × Int)) (key : String)
    (now : Int) : Option α × List (String × α × Int) :=
  match findCache cache key with
  | some entry =>
      if now - entry.2 < CACHE_TTL then (some entry.1, cache)
      else (none, eraseCache cache key)
  | none => (none, eraseCache cache key)

/-! ## Transport failure classification (`fetchJson`, qubic.ts lines 99-111) -/

/-- An observable side effect of the response handler: a timed sleep or a
repeated network call.  The handler never emits `refetch`; its absence in the
trace is the "never silently retries" guarantee. -/
inductive RpcAction where
  | wait (ms : Nat)
  | refetch
deriving DecidableEq, Repr

/-- The failures `fetchJson` raises: the typed rate-limit error of line 106
and the status-carrying upstream error of line 110. -/
inductive RpcFailure where
  | rateLimited (msg : String)
  | httpError (status : Nat) (body : String)
deriving DecidableEq, Repr

/-- Lines 99-111 of `fetchJson`, as a function of the HTTP status and the
response body text (`res.ok` is status 200-299 per the Fetch standard): a 429
sleeps 5000ms once and then throws the typed rate-limit error; any other
non-2xx throws an error carrying the status code and body text.  The first
component is the trace of side effects before the outcome. -/
def handleResponse (status : Nat) (body : String) :
    List RpcAction × Except RpcFailure Unit :=
  if 200 ≤ status ∧ status ≤ 299 then ([], Except.ok ())
  else if status = 429 then
    ([RpcAction.wait 5000], Except.error (RpcFailure.rateLimited "Rate limited - please wait"))
  else ([], Except.error (RpcFailure.httpError status body))

/-! ## Alert generation (`getRecentAlerts`, qubic.ts lines 468-523) -/

/-- The `type` field of an `AlertEvent` (line 461). -/
inductive AlertType where
  | whale_sell
  | whale_buy
  | new_wallet
  | large_tx
deriving DecidableEq, Repr

/-- The `impact` field of an `AlertEvent` (line 463). -/
inductive AlertImpact where
  | High
  | Medium
  | Low
deriving DecidableEq, Repr

/-- An `AlertEvent` (lines 459-466), restricted to the fields with semantic
content; the display strings `message` and `timestamp` are omitted. -/
structure AlertEvent where
  id : Nat
  type : AlertType
  impact : AlertImpact
  amount : Option ℚ
deriving DecidableEq, Repr

/-- Line 490: `Number(tx.amount) / 1000`, the raw amount converted to QU.
A missing amount converts to `NaN`, whose comparisons are all false; this is
modelled as `none`, with every guard requiring a present value. -/
def convAmt (tx : Transaction) : Option ℚ :=
  tx.amount.map (fun a => (a : ℚ) / 1000)

/-- The `transactions.forEach` body of lines 487-516: `idx` is the running
index, `seen` the `seenWallets` set.  For each settled transaction whose
converted amount exceeds the threshold, push a whale alert (id `idx+1`,
`whale_buy` when the amount is positive, impact `High` when it exceeds twice
the threshold, else `Medium`); then, when the source wallet is unseen and the
amount exceeds half the threshold, mark it seen and push a `new_wallet` alert
(id `idx+100`, impact `Medium`). -/
def alertScan (largeThreshold : ℚ) : Nat → List String → List Transaction → List AlertEvent
  | _, _, [] => []
  | idx, seen, tx :: rest =>
      if tx.moneyFlew = some false then alertScan largeThreshold (idx + 1) seen rest
      else
        match convAmt tx with
        | none => alertScan largeThreshold (idx + 1) seen rest
        | some amount =>
            (if largeThreshold < amount then
              [⟨idx + 1,
                if 0 < amount then AlertType.whale_buy else AlertType.whale_sell,
                if largeThreshold * 2 < amount then AlertImpact.High else AlertImpact.Medium,
                some amount⟩]
             else []) ++
            (if tx.sourceId ∉ seen ∧ largeThreshold / 2 < amount then
              [⟨idx + 100, AlertType.new_wallet, AlertImpact.Medium, none⟩]
             else []) ++
            alertScan largeThreshold (idx + 1)
              (if tx.sourceId ∉ seen ∧ largeThreshold / 2 < amount then
                tx.sourceId :: seen
               else seen) rest

/-- The pure core of `getRecentAlerts` on an already-fetched window: scan the
transactions and return the first 8 alerts found, in scan order (line 518). -/
def recentAlertsCore (transactions : List Transaction) (largeThreshold : ℚ) :
    List AlertEvent :=
  (alertScan largeThreshold 0 [] transactions).take 8

/-- The property claim C7 asserts of the alert scan: the output is the first
8 alerts in scan order; every whale alert comes from a settled transaction at
its recorded index whose converted amount exceeds the threshold, with impact
`High` exactly when it exceeds twice the threshold; every such transaction
yields a whale alert; and the first qualifying occurrence of a source wallet
above half the threshold yields a `new_wallet` alert. -/
def alertSpec (transactions : List Transaction) (largeThreshold : ℚ) : Prop :=
  recentAlertsCore transactions largeThreshold =
      (alertScan largeThreshold 0 [] transactions).take 8 ∧
  (recentAlertsCore transactions largeThreshold).length ≤ 8 ∧
  (∀ a ∈ alertScan largeThreshold 0 [] transactions,
    a.type = AlertType.whale_buy ∨ a.type = AlertType.whale_sell →
      ∃ i tx q, transactions.get? i = some tx ∧ a.id = i + 1 ∧
        tx.moneyFlew ≠ some false ∧ convAmt tx = some q ∧ largeThreshold < q ∧
        a.impact = (if largeThreshold * 2 < q then AlertImpact.High else AlertImpact.Medium) ∧
        a.amount = some q) ∧
  (∀ i tx q, transactions.get? i = some tx → tx.moneyFlew ≠ some false →
    convAmt tx = some q → largeThreshold < q →
      ∃ a ∈ alertScan largeThreshold 0 [] transactions, a.id = i + 1 ∧
        (a.type = AlertType.whale_buy ∨ a.type = AlertType.whale_sell) ∧
        a.impact = (if largeThreshold * 2 < q then AlertImpact.High else AlertImpact.Medium) ∧
        a.amount = some q) ∧
  (∀ i tx q, transactions.get? i = some tx → tx.moneyFlew ≠ some false →
    convAmt tx = some q → largeThreshold / 2 < q →
    (∀ j tx2 q2, j < i → transactions.get? j = some tx2 →
      tx2.sourceId = tx.sourceId → tx2.moneyFlew ≠ some false →
      convAmt tx2 = some q2 → ¬ largeThreshold / 2 < q2) →
      ∃ a ∈ alertScan largeThreshold 0 [] transactions,
        a.type = AlertType.new_wallet ∧ a.id = i + 100)

/-- The property claim C10 asserts: with a positive threshold, no alert of
type `whale_sell` is ever produced — every large-transaction alert is a
`whale_buy` (the only other type emitted is `new_wallet`). -/
def noSellAlerts (transactions : List Transaction) (largeThreshold : ℚ) : Prop :=
  (∀ a ∈ recentAlertsCore transactions largeThreshold,
    a.type = AlertType.whale_buy ∨ a.type = AlertType.new_wallet) ∧
  (∀ a ∈ alertScan largeThreshold 0 [] transactions,
    a.type ≠ AlertType.whale_sell)

/-- The spec's alert scenario: threshold 1000 QU, one settled transfer
converting to 2500 QU and one converting to 1200 QU (raw amounts 2500000 and
1200000). -/
def alertScenarioTxs : List Transaction :=
  [⟨"WALLETONE", "DESTONE", some 2500000, 1, some true⟩,
   ⟨"WALLETTWO", "DESTTWO", some 1200000, 1, some true⟩]

/-! ## Degraded aggregate accessors (qubic.ts lines 428-456, 468-523,
541-590, 593-683, 686-730)

Each of the five aggregate accessors has the shape
`try { tickInfo ← getTickInfo; if (!currentTick) return []; ...; return r }
catch { return [] }`.  `getTickInfo` throwing, the tick being absent, and the
tick being 0 (falsy) all yield `[]`, as does any error thrown by the body.
The network-dependent parts are modelled as `Option`-valued oracles passed as
arguments (`none` is a thrown error); the pure parts of each body reuse the
aggregation definitions above. -/

/-- A point of the holder-growth series (lines 527-531), display date
omitted. -/
structure HolderGrowthDataPoint where
  tick : Nat
  holders : Nat
deriving DecidableEq, Repr

/-- A cell of the activity heatmap (line 689). -/
structure HeatmapCell where
  day : String
  hour : Nat
  activity : Nat
deriving DecidableEq, Repr

/-- The common control skeleton of the five aggregate accessors:
`tickResult` is the outcome of `getTickInfo` (`none` = it threw;
`some none` = response carried no tick; `some (some t)` = tick `t`), and
`body` the rest of the `try` block (`none` = it threw). -/
def aggregateAccessor {α : Type} (tickResult : Option (Option Nat))
    (body : Nat → Option (List α)) : List α :=
  match tickResult with
  | none => []
  | some none => []
  | some (some t) =>
      if t = 0 then []
      else
        match body t with
        | none => []
        | some r => r

/-- `getWhaleActivity` (lines 428-456): fetch the window, aggregate by
wallet, identify the top 6 whales; degrade to `[]` as above. -/
def getWhaleActivity (tickResult : Option (Option Nat))
    (fetchTxs : Nat → Option (List Transaction)) : List WhaleData :=
  aggregateAccessor tickResult
    (fun t => (fetchTxs t).map (fun txs => identifyWhales (aggregateByWallet txs) 6))

/-- `getRecentAlerts` (lines 468-523) with its network part abstracted. -/
def getRecentAlerts (tickResult : Option (Option Nat))
    (fetchTxs : Nat → Option (List Transaction)) (largeThreshold : ℚ) :
    List AlertEvent :=
  aggregateAccessor tickResult
    (fun t => (fetchTxs t).map (fun txs => recentAlertsCore txs largeThreshold))

/-- `getHolderGrowth` (lines 541-590) with its body abstracted. -/
def getHolderGrowth (tickResult : Option (Option Nat))
    (body : Nat → Option (List HolderGrowthDataPoint)) : List HolderGrowthDataPoint :=
  aggregateAccessor tickResult body

/-- `getTokenDistribution` (lines 593-683): replay balances over the fetched
window, rank and cut tiers; a throw anywhere in the body (including the
zero-supply `RangeError`) degrades to `[]`. -/
def getTokenDistribution (tickResult : Option (Option Nat))
    (fetchTxs : Nat → Option (List Transaction)) : List TokenDistribution :=
  aggregateAccessor tickResult
    (fun t => (fetchTxs t).bind (fun txs =>
      (replayBalances txs).bind (fun bal =>
        distributionTiers (sortDescBy (fun e => e.2) bal))))

/-- `getTransactionFlowHeatmap` (lines 686-730) with its body abstracted. -/
def getTransactionFlowHeatmap (tickResult : Option (Option Nat))
    (body : Nat → Option (List HeatmapCell)) : List HeatmapCell :=
  aggregateAccessor tickResult body

/-- The degraded-tick condition of claim C9: `getTickInfo` threw, or the
response carried no tick number, or the tick is 0 ("not yet known"). -/
def tickUnavailable (tickResult : Option (Option Nat)) : Prop :=
  tickResult = none ∨ tickResult = some none ∨ tickResult = some (some 0)

end Qubic

namespace Qubic

/-! ## Lemmas about `aggregateByWallet` -/

theorem findEntry_cons (e : String × Int × Int) (es : List (String × Int × Int))
    (k : String) :
    findEntry (e :: es) k =
      if e.1 = k then some (e.2.1, e.2.2) else findEntry es k := rfl

theorem addOutgoing_cons (e : String × Int × Int) (es : List (String × Int × Int))
    (k : String) (a : Int) :
    addOutgoing (e :: es) k a =
      if e.1 = k then (e.1, e.2.1 + a, e.2.2) :: addOutgoing es k a
      else e :: addOutgoing es k a := rfl

theorem addIncoming_cons (e : String × Int × Int) (es : List (String × Int × Int))
    (k : String) (a : Int) :
    addIncoming (e :: es) k a =
      if e.1 = k then (e.1, e.2.1, e.2.2 + a) :: addIncoming es k a
      else e :: addIncoming es k a := rfl

theorem specOutgoingTotal_cons (w : String) (tx : Transaction) (txs : List Transaction) :
    specOutgoingTotal w (tx :: txs) =
      (if countsTx tx ∧ tx.sourceId = w then tx.amount.getD 0 else 0) +
        specOutgoingTotal w txs := rfl

theorem specIncomingTotal_cons (w : String) (tx : Transaction) (txs : List Transaction) :
    specIncomingTotal w (tx :: txs) =
      (if countsTx tx ∧ tx.destId = w then tx.amount.getD 0 else 0) +
        specIncomingTotal w txs := rfl

theorem specParticipates_cons (w : String) (tx : Transaction) (txs : List Transaction) :
    specParticipates w (tx :: txs) ↔
      (countsTx tx ∧ (tx.sourceId = w ∨ tx.destId = w)) ∨ specParticipates w txs :=
  Iff.rfl

theorem findEntry_append (l ws : List (String × Int × Int)) (w : String) :
    findEntry (ws ++ l) w =
      match findEntry ws w with
      | some p => some p
      | none => findEntry l w := by
  induction ws with
  | nil => simp [findEntry]
  | cons e es ih =>
      by_cases h : e.1 = w <;> simp [findEntry, h, ih]

theorem findEntry_addOutgoing (ws : List (String × Int × Int)) (k w : String) (a : Int) :
    findEntry (addOutgoing ws k a) w =
      if w = k then (findEntry ws w).map (fun p => (p.1 + a, p.2))
      else findEntry ws w := by
  induction ws with
  | nil => by_cases h : w = k <;> simp [addOutgoing, findEntry, h]
  | cons e es ih =>
      rw [addOutgoing_cons]
      by_cases he : e.1 = k
      · rw [if_pos he]
        by_cases hw : e.1 = w
        · have hwk : w = k := hw.symm.trans he
          rw [findEntry_cons, findEntry_cons, if_pos hw, if_pos hw, if_pos hwk]
          simp
        · have hwk : ¬ w = k := fun hh => hw (he.trans hh.symm)
          rw [findEntry_cons, findEntry_cons, if_neg hw, if_neg hw, ih,
            if_neg hwk]
      · rw [if_neg he]
        by_cases hw : e.1 = w
        · have hwk : ¬ w = k := fun hh => he (hw.trans hh)
          rw [findEntry_cons, findEntry_cons, if_pos hw, if_pos hw, if_neg hwk]
        · rw [findEntry_cons, findEntry_cons, if_neg hw, if_neg hw, ih]

theorem findEntry_addIncoming (ws : List (String × Int × Int)) (k w : String) (a : Int) :
    findEntry (addIncoming ws k a) w =
      if w = k then (findEntry ws w).map (fun p => (p.1, p.2 + a))
      else findEntry ws w := by
  induction ws with
  | nil => by_cases h : w = k <;> simp [addIncoming, findEntry, h]
  | cons e es ih =>
      rw [addIncoming_cons]
      by_cases he : e.1 = k
      · rw [if_pos he]
        by_cases hw : e.1 = w
        · have hwk : w = k := hw.symm.trans he
          rw [findEntry_cons, findEntry_cons, if_pos hw, if_pos hw, if_pos hwk]
          simp
        · have hwk : ¬ w = k := fun hh => hw (he.trans hh.symm)
          rw [findEntry_cons, findEntry_cons, if_neg hw, if_neg hw, ih,
            if_neg hwk]
      · rw [if_neg he]
        by_cases hw : e.1 = w
        · have hwk : ¬ w = k := fun hh => he (hw.trans hh)
          rw [findEntry_cons, findEntry_cons, if_pos hw, if_pos hw, if_neg hwk]
        · rw [findEntry_cons, findEntry_cons, if_neg hw, if_neg hw, ih]

theorem findEntry_ensureWallet (ws : List (String × Int × Int)) (k w : String) :
    findEntry (ensureWallet ws k) w =
      match findEntry ws w with
      | some p => some p
      | none => if w = k then some (0, 0) else none := by
  unfold ensureWallet
  by_cases h : hasKey ws k = true
  · rw [if_pos h]
    cases hf : findEntry ws w with
    | some p => simp
    | none =>
        by_cases hw : w = k
        · subst hw; unfold hasKey at h; rw [hf] at h; simp at h
        · simp [hw]
  · rw [if_neg h]
    rw [findEntry_append]
    cases hf : findEntry ws w with
    | some p => simp
    | none =>
        by_cases hw : w = k
        · subst hw; simp [findEntry]
        · have hkw : ¬ k = w := fun hh => hw hh.symm
          simp [findEntry, hkw, hw]

theorem getOutgoing_ensureWallet (ws : List (String × Int × Int)) (k w : String) :
    getOutgoing (ensureWallet ws k) w = getOutgoing ws w := by
  unfold getOutgoing
  rw [findEntry_ensureWallet]
  cases hf : findEntry ws w <;> simp
  by_cases hw : w = k <;> simp [hw]

theorem getIncoming_ensureWallet (ws : List (String × Int × Int)) (k w : String) :
    getIncoming (ensureWallet ws k) w = getIncoming ws w := by
  unfold getIncoming
  rw [findEntry_ensureWallet]
  cases hf : findEntry ws w <;> simp
  by_cases hw : w = k <;> simp [hw]

theorem hasKey_ensureWallet (ws : List (String × Int × Int)) (k w : String) :
    hasKey (ensureWallet ws k) w = (hasKey ws w || decide (w = k)) := by
  unfold hasKey
  rw [findEntry_ensureWallet]
  cases hf : findEntry ws w <;> by_cases hw : w = k <;> simp [hw]

theorem getOutgoing_addIncoming (ws : List (String × Int × Int)) (k w : String) (a : Int) :
    getOutgoing (addIncoming ws k a) w = getOutgoing ws w := by
  unfold getOutgoing
  rw [findEntry_addIncoming]
  by_cases hw : w = k <;> cases hf : findEntry ws w <;> simp [hw]

theorem getIncoming_addOutgoing (ws : List (String × Int × Int)) (k w : String) (a : Int) :
    getIncoming (addOutgoing ws k a) w = getIncoming ws w := by
  unfold getIncoming
  rw [findEntry_addOutgoing]
  by_cases hw : w = k <;> cases hf : findEntry ws w <;> simp [hw]

theorem getOutgoing_addOutgoing_self (ws : List (String × Int × Int)) (k : String)
    (a : Int) (h : hasKey ws k = true) :
    getOutgoing (addOutgoing ws k a) k = getOutgoing ws k + a := by
  unfold hasKey at h
  unfold getOutgoing
  rw [findEntry_addOutgoing]
  cases hf : findEntry ws k with
  | none => rw [hf] at h; simp at h
  | some p => simp

theorem getOutgoing_addOutgoing_other (ws : List (String × Int × Int)) (k w : String)
    (a : Int) (h : w ≠ k) :
    getOutgoing (addOutgoing ws k a) w = getOutgoing ws w := by
  unfold getOutgoing
  rw [findEntry_addOutgoing]
  simp [h]

theorem getIncoming_addIncoming_self (ws : List (String × Int × Int)) (k : String)
    (a : Int) (h : hasKey ws k = true) :
    getIncoming (addIncoming ws k a) k = getIncoming ws k + a := by
  unfold hasKey at h
  unfold getIncoming
  rw [findEntry_addIncoming]
  cases hf : findEntry ws k with
  | none => rw [hf] at h; simp at h
  | some p => simp

theorem getIncoming_addIncoming_other (ws : List (String × Int × Int)) (k w : String)
    (a : Int) (h : w ≠ k) :
    getIncoming (addIncoming ws k a) w = getIncoming ws w := by
  unfold getIncoming
  rw [findEntry_addIncoming]
  simp [h]

theorem hasKey_addOutgoing (ws : List (String × Int × Int)) (k w : String) (a : Int) :
    hasKey (addOutgoing ws k a) w = hasKey ws w := by
  unfold hasKey
  rw [findEntry_addOutgoing]
  by_cases hw : w = k <;> cases hf : findEntry ws w <;> simp [hw]

theorem hasKey_addIncoming (ws : List (String × Int × Int)) (k w : String) (a : Int) :
    hasKey (addIncoming ws k a) w = hasKey ws w := by
  unfold hasKey
  rw [findEntry_addIncoming]
  by_cases hw : w = k <;> cases hf : findEntry ws w <;> simp [hw]

theorem getOutgoing_aggStep (ws : List (String × Int × Int)) (tx : Transaction)
    (w : String) :
    getOutgoing (aggStep ws tx) w =
      getOutgoing ws w +
        (if countsTx tx ∧ tx.sourceId = w then tx.amount.getD 0 else 0) := by
  unfold aggStep
  by_cases hmf : tx.moneyFlew = some false
  · simp [hmf, countsTx]
  · simp only [hmf, if_false]
    cases ha : tx.amount with
    | none => simp [countsTx, ha]
    | some a =>
        have hcounts : countsTx tx := ⟨hmf, by simp [ha]⟩
        by_cases hw : tx.sourceId = w
        · subst hw
          rw [getOutgoing_addIncoming, getOutgoing_addOutgoing_self]
          · rw [getOutgoing_ensureWallet, getOutgoing_ensureWallet]
            simp [hcounts, ha]
          · rw [hasKey_ensureWallet, hasKey_ensureWallet]
            simp
        · rw [getOutgoing_addIncoming, getOutgoing_addOutgoing_other _ _ _ _
            (fun hh => hw hh.symm)]
          rw [getOutgoing_ensureWallet, getOutgoing_ensureWallet]
          simp [hw]

theorem getIncoming_aggStep (ws : List (String × Int × Int)) (tx : Transaction)
    (w : String) :
    getIncoming (aggStep ws tx) w =
      getIncoming ws w +
        (if countsTx tx ∧ tx.destId = w then tx.amount.getD 0 else 0) := by
  unfold aggStep
  by_cases hmf : tx.moneyFlew = some false
  · simp [hmf, countsTx]
  · simp only [hmf, if_false]
    cases ha : tx.amount with
    | none => simp [countsTx, ha]
    | some a =>
        have hcounts : countsTx tx := ⟨hmf, by simp [ha]⟩
        by_cases hw : tx.destId = w
        · subst hw
          rw [getIncoming_addIncoming_self]
          · rw [getIncoming_addOutgoing, getIncoming_ensureWallet,
              getIncoming_ensureWallet]
            simp [hcounts, ha]
          · rw [hasKey_addOutgoing, hasKey_ensureWallet]
            simp
        · rw [getIncoming_addIncoming_other _ _ _ _ (fun hh => hw hh.symm)]
          rw [getIncoming_addOutgoing, getIncoming_ensureWallet,
            getIncoming_ensureWallet]
          simp [hw]

theorem hasKey_aggStep (ws : List (String × Int × Int)) (tx : Transaction)
    (w : String) :
    (hasKey (aggStep ws tx) w = true ↔
      hasKey ws w = true ∨ (countsTx tx ∧ (tx.sourceId = w ∨ tx.destId = w))) := by
  unfold aggStep
  by_cases hmf : tx.moneyFlew = some false
  · simp [hmf, countsTx]
  · simp only [hmf, if_false]
    cases ha : tx.amount with
    | none => simp [countsTx, ha]
    | some a =>
        have hcounts : countsTx tx := ⟨hmf, by simp [ha]⟩
        rw [hasKey_addIncoming, hasKey_addOutgoing, hasKey_ensureWallet,
          hasKey_ensureWallet]
        simp only [Bool.or_eq_true, decide_eq_true_eq]
        constructor
        · rintro ((h | h) | h)
          · exact Or.inl h
          · exact Or.inr ⟨hcounts, Or.inl h.symm⟩
          · exact Or.inr ⟨hcounts, Or.inr h.symm⟩
        · rintro (h | ⟨-, h | h⟩)
          · exact Or.inl (Or.inl h)
          · exact Or.inl (Or.inr h.symm)
          · exact Or.inr h.symm

theorem foldl_aggStep_getOutgoing (txs : List Transaction) :
    ∀ ws w, getOutgoing (txs.foldl aggStep ws) w =
      getOutgoing ws w + specOutgoingTotal w txs := by
  induction txs with
  | nil => intro ws w; simp [specOutgoingTotal]
  | cons tx txs ih =>
      intro ws w
      rw [List.foldl_cons, ih, getOutgoing_aggStep, specOutgoingTotal_cons]
      ring

theorem foldl_aggStep_getIncoming (txs : List Transaction) :
    ∀ ws w, getIncoming (txs.foldl aggStep ws) w =
      getIncoming ws w + specIncomingTotal w txs := by
  induction txs with
  | nil => intro ws w; simp [specIncomingTotal]
  | cons tx txs ih =>
      intro ws w
      rw [List.foldl_cons, ih, getIncoming_aggStep, specIncomingTotal_cons]
      ring

theorem foldl_aggStep_hasKey (txs : List Transaction) :
    ∀ ws w, (hasKey (txs.foldl aggStep ws) w = true ↔
      hasKey ws w = true ∨ specParticipates w txs) := by
  induction txs with
  | nil => intro ws w; simp [specParticipates]
  | cons tx txs ih =>
      intro ws w
      rw [List.foldl_cons, ih, specParticipates_cons]
      rw [hasKey_aggStep]
      tauto

/-- Claim C1: `aggregateByWallet` skips every transaction with
`moneyFlew === false` or a missing amount (such a transaction contributes
nothing to any wallet), adds each remaining transaction's amount exactly once
to the source's outgoing total and exactly once to the destination's incoming
total — the totals are exactly the corresponding sums over the counted
transactions, computed in exact integer (`bigint`) arithmetic — and a wallet
has an entry (zero-initialized before any accumulation) precisely when it is
an endpoint of some counted transaction. -/
theorem aggregateByWallet_correct (txs : List Transaction) (w : String) :
    getOutgoing (aggregateByWallet txs) w = specOutgoingTotal w txs ∧
    getIncoming (aggregateByWallet txs) w = specIncomingTotal w txs ∧
    (hasKey (aggregateByWallet txs) w = true ↔ specParticipates w txs) := by
  unfold aggregateByWallet
  refine ⟨?_, ?_, ?_⟩
  · rw [foldl_aggStep_getOutgoing]; simp [getOutgoing, findEntry]
  · rw [foldl_aggStep_getIncoming]; simp [getIncoming, findEntry]
  · rw [foldl_aggStep_hasKey]; simp [hasKey, findEntry]

/-- Claim C2 (counterexample): on the spec's three-transaction scenario the
code does not return the claimed aggregate — wallet A's incoming total is 0,
not 200, because the unsettled C→A transfer is excluded entirely and nothing
else pays A. -/
theorem scenario_aggregate_ne_claimed :
    aggregateByWallet scenarioTxs ≠ scenarioClaimedAggregate ∧
    getIncoming (aggregateByWallet scenarioTxs) "A" = 0 ∧
    ¬ getIncoming (aggregateByWallet scenarioTxs) "A" = 200 := by
  refine ⟨by decide, by decide, by decide⟩

/-- Claim C2 (amended): the scenario's actual aggregate is
A:{out 500, in 0}, B:{out 200, in 500}, C:{out 0, in 200}, with the
`moneyFlew:false` transfer excluded entirely. -/
theorem scenario_aggregate_eval :
    aggregateByWallet scenarioTxs = [("A", 500, 0), ("B", 200, 500), ("C", 0, 200)] := by
  decide

/-! ## Lemmas about the stable descending sort -/

theorem insertDescBy_cons {α β : Type} [LinearOrder β] (key : α → β) (x y : α)
    (ys : List α) :
    insertDescBy key x (y :: ys) =
      if key y ≤ key x then x :: y :: ys else y :: insertDescBy key x ys := rfl

theorem sortDescBy_cons {α β : Type} [LinearOrder β] (key : α → β) (x : α)
    (l : List α) :
    sortDescBy key (x :: l) = insertDescBy key x (sortDescBy key l) := rfl

theorem insertDescBy_perm {α β : Type} [LinearOrder β] (key : α → β) (x : α)
    (l : List α) : List.Perm (insertDescBy key x l) (x :: l) := by
  induction l with
  | nil => exact List.Perm.refl _
  | cons y ys ih =>
      rw [insertDescBy_cons]
      by_cases h : key y ≤ key x
      · rw [if_pos h]
      · rw [if_neg h]
        exact (ih.cons y).trans (List.Perm.swap x y ys)

theorem sortDescBy_perm {α β : Type} [LinearOrder β] (key : α → β) (l : List α) :
    List.Perm (sortDescBy key l) l := by
  induction l with
  | nil => exact List.Perm.refl _
  | cons x xs ih =>
      rw [sortDescBy_cons]
      exact (insertDescBy_perm key x (sortDescBy key xs)).trans (ih.cons x)

theorem insertDescBy_pairwise {α β : Type} [LinearOrder β] (key : α → β) (x : α)
    (l : List α) (h : List.Pairwise (fun a b => key b ≤ key a) l) :
    List.Pairwise (fun a b => key b ≤ key a) (insertDescBy key x l) := by
  induction l with
  | nil => simp [insertDescBy]
  | cons y ys ih =>
      obtain ⟨hy, hys⟩ := List.pairwise_cons.mp h
      rw [insertDescBy_cons]
      by_cases hxy : key y ≤ key x
      · rw [if_pos hxy]
        refine List.pairwise_cons.mpr ⟨?_, h⟩
        intro b hb
        rcases List.mem_cons.mp hb with hb | hb
        · rw [hb]; exact hxy
        · exact (hy b hb).trans hxy
      · rw [if_neg hxy]
        refine List.pairwise_cons.mpr ⟨?_, ih hys⟩
        intro b hb
        rcases List.mem_cons.mp ((insertDescBy_perm key x ys).mem_iff.mp hb) with hb | hb
        · rw [hb]; exact le_of_not_le hxy
        · exact hy b hb

theorem sortDescBy_pairwise {α β : Type} [LinearOrder β] (key : α → β) (l : List α) :
    List.Pairwise (fun a b => key b ≤ key a) (sortDescBy key l) := by
  induction l with
  | nil => simp [sortDescBy]
  | cons x xs ih =>
      rw [sortDescBy_cons]
      exact insertDescBy_pairwise key x _ ih

theorem insertDescBy_filter_key {α β : Type} [LinearOrder β] (key : α → β) (x : α)
    (l : List α) (c : β) :
    (insertDescBy key x l).filter (fun y => decide (key y = c)) =
      if key x = c then x :: l.filter (fun y => decide (key y = c))
      else l.filter (fun y => decide (key y = c)) := by
  induction l with
  | nil => by_cases h : key x = c <;> simp [insertDescBy, h]
  | cons y ys ih =>
      rw [insertDescBy_cons]
      by_cases hxy : key y ≤ key x
      · rw [if_pos hxy]
        by_cases hx : key x = c <;> simp [List.filter_cons, hx]
      · rw [if_neg hxy]
        by_cases hyc : key y = c
        · have hx : ¬ key x = c := fun hh => hxy (le_of_eq (hyc.trans hh.symm))
          simp [List.filter_cons, hyc, hx, ih]
        · by_cases hx : key x = c <;> simp [List.filter_cons, hyc, hx, ih]

theorem sortDescBy_filter_key {α β : Type} [LinearOrder β] (key : α → β)
    (l : List α) (c : β) :
    (sortDescBy key l).filter (fun y => decide (key y = c)) =
      l.filter (fun y => decide (key y = c)) := by
  induction l with
  | nil => rfl
  | cons x xs ih =>
      rw [sortDescBy_cons, insertDescBy_filter_key]
      by_cases hx : key x = c <;> simp [List.filter_cons, hx, ih]

/-! ## Lemmas about `identifyWhales` -/

theorem relabelFrom_length (l : List WhaleData) : ∀ i, (relabelFrom i l).length = l.length := by
  induction l with
  | nil => intro i; rfl
  | cons w ws ih => intro i; simp [relabelFrom, ih]

theorem relabelFrom_fields (l : List WhaleData) :
    ∀ i, (relabelFrom i l).map (fun w => (w.buys, w.sells, w.net)) =
      l.map (fun w => (w.buys, w.sells, w.net)) := by
  induction l with
  | nil => intro i; rfl
  | cons w ws ih => intro i; simp [relabelFrom, ih]

theorem relabelFrom_wallets (l : List WhaleData) :
    ∀ i, (relabelFrom i l).map (fun w => w.wallet) =
      (List.range l.length).map (fun j => "Whale #" ++ toString (i + j + 1)) := by
  induction l with
  | nil => intro i; rfl
  | cons w ws ih =>
      intro i
      simp only [relabelFrom, List.map_cons, List.length_cons,
        List.range_succ_eq_map, ih (i + 1), List.map_map]
      refine congrArg₂ List.cons rfl ?_
      refine List.map_congr_left ?_
      intro j hj
      have : i + 1 + j + 1 = i + (j + 1) + 1 := by omega
      simp [Function.comp, this]

theorem mem_relabelFrom (l : List WhaleData) :
    ∀ i b, b ∈ relabelFrom i l →
      ∃ a ∈ l, b.buys = a.buys ∧ b.sells = a.sells := by
  induction l with
  | nil => intro i b hb; simp [relabelFrom] at hb
  | cons w ws ih =>
      intro i b hb
      rcases List.mem_cons.mp hb with hb | hb
      · exact ⟨w, List.mem_cons_self w ws, by rw [hb], by rw [hb]⟩
      · obtain ⟨a, ha, hba⟩ := ih (i + 1) b hb
        exact ⟨a, List.mem_cons_of_mem w ha, hba⟩

theorem pairwise_relabelFrom (l : List WhaleData)
    (h : List.Pairwise (fun a b => volume b ≤ volume a) l) :
    ∀ i, List.Pairwise (fun a b => volume b ≤ volume a) (relabelFrom i l) := by
  induction l with
  | nil => intro i; simp [relabelFrom]
  | cons w ws ih =>
      intro i
      obtain ⟨hw, hws⟩ := List.pairwise_cons.mp h
      refine List.pairwise_cons.mpr ⟨?_, ih hws (i + 1)⟩
      intro b hb
      obtain ⟨a, ha, hb1, hb2⟩ := mem_relabelFrom ws (i + 1) b hb
      have hva : volume b = volume a := by unfold volume; rw [hb1, hb2]
      have : volume a ≤ volume w := hw a ha
      unfold volume at *
      rw [hva]
      exact this

/-- Claim C3: for every wallet aggregation and requested `topN`,
`identifyWhales` returns at most `topN` records, sorted descending by the
absolute volume `|buys + sells|` (amounts scaled to display units by the
fixed divisor 1000 inside `toWhale`); the underlying sort is a permutation
that keeps records of equal volume in the original map iteration order; and
the `wallet` field of the i-th returned record is the rank label
`Whale #(i+1)`, the real wallet identifier being discarded (the other fields
are exactly those of the ranked records). -/
theorem identifyWhales_correct (walletAggregation : List (String × Int × Int))
    (topN : Nat) :
    (identifyWhales walletAggregation topN).length ≤ topN ∧
    List.Pairwise (fun a b => volume b ≤ volume a)
      (identifyWhales walletAggregation topN) ∧
    (identifyWhales walletAggregation topN).map (fun w => w.wallet) =
      (List.range (identifyWhales walletAggregation topN).length).map
        (fun j => "Whale #" ++ toString (j + 1)) ∧
    (identifyWhales walletAggregation topN).map (fun w => (w.buys, w.sells, w.net)) =
      ((sortDescBy volume (walletAggregation.map toWhale)).take topN).map
        (fun w => (w.buys, w.sells, w.net)) ∧
    List.Perm (sortDescBy volume (walletAggregation.map toWhale))
      (walletAggregation.map toWhale) ∧
    (∀ c : ℚ, (sortDescBy volume (walletAggregation.map toWhale)).filter
        (fun w => decide (volume w = c)) =
      (walletAggregation.map toWhale).filter (fun w => decide (volume w = c))) := by
  refine ⟨?_, ?_, ?_, ?_, ?_, ?_⟩
  · unfold identifyWhales
    rw [relabelFrom_length, List.length_take]
    exact min_le_left _ _
  · unfold identifyWhales
    refine pairwise_relabelFrom _ ?_ 0
    exact (sortDescBy_pairwise volume _).sublist (List.take_sublist _ _)
  · unfold identifyWhales
    rw [relabelFrom_wallets, relabelFrom_length]
    refine List.map_congr_left ?_
    intro j hj
    have : 0 + j + 1 = j + 1 := by omega
    rw [this]
  · unfold identifyWhales
    rw [relabelFrom_fields]
  · exact sortDescBy_perm volume _
  · intro c
    exact sortDescBy_filter_key volume _ c

/-! ## Lemmas about `getTokenDistribution` -/

theorem four_slice_partition {γ : Type} (l : List γ) :
    l.take 3 ++ ((l.drop 3).take 7 ++ ((l.drop 10).take 40 ++ l.drop 50)) = l := by
  have e1 : (l.drop 3).drop 7 = l.drop 10 := by
    rw [List.drop_drop]
  have e2 : (l.drop 10).drop 40 = l.drop 50 := by
    rw [List.drop_drop]
  calc l.take 3 ++ ((l.drop 3).take 7 ++ ((l.drop 10).take 40 ++ l.drop 50))
      = l.take 3 ++ ((l.drop 3).take 7 ++ ((l.drop 10).take 40 ++ (l.drop 10).drop 40)) := by
        rw [e2]
    _ = l.take 3 ++ ((l.drop 3).take 7 ++ l.drop 10) := by
        rw [List.take_append_drop]
    _ = l.take 3 ++ ((l.drop 3).take 7 ++ (l.drop 3).drop 7) := by rw [e1]
    _ = l.take 3 ++ l.drop 3 := by rw [List.take_append_drop]
    _ = l := List.take_append_drop 3 l

/-- Claim C4 (amended): for every nonempty balance map whose total balance is
nonzero, the four tiers exist, their wallet counts and amounts are exactly
those of the four slices of the ranked wallet list, the slices partition the
ranked list (no balance dropped, none counted twice), and the tier amounts
sum to the total of all balances fed in. -/
theorem getTokenDistribution_partition (balances : List (String × Int))
    (h1 : balances ≠ []) (h2 : (balances.map (fun e => e.2)).sum ≠ 0) :
    distPartitionSpec balances := by
  have hperm := sortDescBy_perm (fun e : String × Int => e.2) balances
  have hlen : (sortDescBy (fun e : String × Int => e.2) balances).length =
      balances.length := hperm.length_eq
  have hsum : ((sortDescBy (fun e : String × Int => e.2) balances).map
      (fun e => e.2)).sum = (balances.map (fun e => e.2)).sum :=
    (hperm.map (fun e : String × Int => e.2)).sum_eq
  have hne : ¬ (sortDescBy (fun e : String × Int => e.2) balances).length = 0 := by
    rw [hlen, List.length_eq_zero]
    exact h1
  have htot : ¬ ((sortDescBy (fun e : String × Int => e.2) balances).map
      (fun e => e.2)).sum = 0 := by
    rw [hsum]; exact h2
  have hdist : tokenDistributionFromBalances balances =
      [tierOf (((sortDescBy (fun e : String × Int => e.2) balances).map
          (fun e => e.2)).sum) "Top 1-3 Wallets"
        ((sortDescBy (fun e : String × Int => e.2) balances).take 3),
       tierOf (((sortDescBy (fun e : String × Int => e.2) balances).map
          (fun e => e.2)).sum) "Top 4-10 Wallets"
        (((sortDescBy (fun e : String × Int => e.2) balances).drop 3).take 7),
       tierOf (((sortDescBy (fun e : String × Int => e.2) balances).map
          (fun e => e.2)).sum) "Top 11-50 Wallets"
        (((sortDescBy (fun e : String × Int => e.2) balances).drop 10).take 40),
       tierOf (((sortDescBy (fun e : String × Int => e.2) balances).map
          (fun e => e.2)).sum) "Retail Holders"
        ((sortDescBy (fun e : String × Int => e.2) balances).drop 50)] := by
    unfold tokenDistributionFromBalances distributionTiers
    rw [if_neg hne, if_neg htot]
  have hslices : (((sortDescBy (fun e : String × Int => e.2) balances).take 3).map
        (fun e => e.2)).sum +
      ((((sortDescBy (fun e : String × Int => e.2) balances).drop 3).take 7).map
        (fun e => e.2)).sum +
      ((((sortDescBy (fun e : String × Int => e.2) balances).drop 10).take 40).map
        (fun e => e.2)).sum +
      (((sortDescBy (fun e : String × Int => e.2) balances).drop 50).map
        (fun e => e.2)).sum =
      (balances.map (fun e => e.2)).sum := by
    rw [← hsum]
    conv_rhs => rw [← four_slice_partition (sortDescBy (fun e : String × Int => e.2) balances)]
    simp only [List.map_append, List.sum_append]
    ring
  unfold distPartitionSpec
  rw [hdist]
  refine ⟨rfl, by simp [tierOf], by simp [tierOf],
    four_slice_partition (sortDescBy (fun e : String × Int => e.2) balances), ?_⟩
  simp only [List.map_cons, List.map_nil, List.sum_cons, List.sum_nil, tierOf]
  linarith [hslices]

/-- Claim C4 (witness): the amended theorem instantiated at a concrete
two-wallet balance map. -/
theorem getTokenDistribution_partition_witness :
    distPartitionSpec [("X", 100), ("Y", 50)] :=
  getTokenDistribution_partition [("X", 100), ("Y", 50)] (by decide) (by decide)

/-- Claim C4 (counterexample): a settled zero-amount transfer reconstructs
the nonempty balance map `{B ↦ 0, A ↦ 0}`; its total supply is 0, so the
percentage computation divides by zero (`RangeError`), the error is caught,
and `getTokenDistribution` returns no tiers at all — the four tiers claimed
to partition the ranked wallets do not exist for this input. -/
theorem getTokenDistribution_zero_supply_cex :
    replayBalances [zeroAmountTx] = some [("B", 0), ("A", 0)] ∧
    tokenDistributionFromBalances [("B", 0), ("A", 0)] = [] ∧
    ([("B", 0), ("A", 0)] : List (String × Int)) ≠ [] := by
  exact ⟨by decide, by decide, by decide⟩

/-! ## Lemmas about the rate-limiting queue -/

theorem startOf_spec (free last arrival : Int) :
    last + MIN_DELAY ≤ startOf free last arrival ∧ free ≤ startOf free last arrival := by
  have hf : free ≤ max arrival free := le_max_right _ _
  unfold startOf MIN_DELAY
  split_ifs with h <;> constructor <;> omega

theorem runQueue_head_start {α : Type} (tasks : List (Int × Nat × α))
    (free last : Int) :
    ∀ q ∈ (runQueue free last tasks).head?,
      last + MIN_DELAY ≤ q.1 ∧ free ≤ q.1 := by
  cases tasks with
  | nil => intro q hq; simp [runQueue] at hq
  | cons t rest =>
      obtain ⟨arrival, d, payload⟩ := t
      intro q hq
      simp only [runQueue, List.head?_cons, Option.mem_def, Option.some_inj] at hq
      rw [← hq]
      exact startOf_spec free last arrival

theorem runQueue_chain {α : Type} (tasks : List (Int × Nat × α)) :
    ∀ free last, List.Chain'
      (fun p q => p.1 + MIN_DELAY ≤ q.1 ∧ p.1 + (p.2.1 : Int) ≤ q.1)
      (runQueue free last tasks) := by
  induction tasks with
  | nil => intro free last; simp [runQueue]
  | cons t rest ih =>
      intro free last
      obtain ⟨arrival, d, payload⟩ := t
      rw [show runQueue free last ((arrival, d, payload) :: rest) =
        (startOf free last arrival, d, payload) ::
          runQueue (startOf free last arrival + (d : Int)) (startOf free last arrival)
            rest from rfl]
      refine List.chain'_cons'.mpr ⟨?_, ih _ _⟩
      intro q hq
      have h := runQueue_head_start rest (startOf free last arrival + (d : Int))
        (startOf free last arrival) q hq
      exact ⟨h.1, h.2⟩

theorem runQueue_order {α : Type} (tasks : List (Int × Nat × α)) :
    ∀ free last, (runQueue free last tasks).map (fun p => (p.2.1, p.2.2)) =
      tasks.map (fun p => (p.2.1, p.2.2)) := by
  induction tasks with
  | nil => intro free last; rfl
  | cons t rest ih =>
      intro free last
      obtain ⟨arrival, d, payload⟩ := t
      simp [runQueue, ih]

/-- Claim C5: replaying the `RequestQueue.process` loop over any task list
(any arrival times, any durations, any number of logical callers feeding the
FIFO), every task is dispatched exactly once, in submission order (the
dispatched durations and payloads are the submitted ones, in order); the
dispatch start times of consecutive tasks are at least `MIN_DELAY` (500 ms)
apart, measured from the previous dispatch's start; and each dispatch starts
only after the previous task's completion (strict serialization), so a slow
upstream call never shrinks the inter-dispatch delay. -/
theorem requestQueue_rate_limit {α : Type} (free last : Int)
    (tasks : List (Int × Nat × α)) :
    (runQueue free last tasks).map (fun p => (p.2.1, p.2.2)) =
      tasks.map (fun p => (p.2.1, p.2.2)) ∧
    List.Chain' (fun p q => p.1 + MIN_DELAY ≤ q.1) (runQueue free last tasks) ∧
    List.Chain' (fun p q => p.1 + (p.2.1 : Int) ≤ q.1) (runQueue free last tasks) := by
  refine ⟨runQueue_order tasks free last, ?_, ?_⟩
  · exact (runQueue_chain tasks free last).imp (fun a b h => h.1)
  · exact (runQueue_chain tasks free last).imp (fun a b h => h.2)

/-! ## Lemmas about the response cache -/

theorem findCache_setCache_self {α : Type} (cache : List (String × α × Int))
    (key : String) (data : α) (time : Int) :
    findCache (setCache cache key data time) key = some (data, time) := by
  induction cache with
  | nil => simp [setCache, findCache]
  | cons e es ih =>
      by_cases h : e.1 = key
      · simp [setCache, findCache, h]
      · simp [setCache, findCache, h, ih]

theorem findCache_eraseCache_self {α : Type} (cache : List (String × α × Int))
    (key : String) :
    findCache (eraseCache cache key) key = none := by
  induction cache with
  | nil => rfl
  | cons e es ih =>
      by_cases h : e.1 = key
      · simp [eraseCache, h, ih]
      · simp [eraseCache, findCache, h, ih]

/-- Claim C6: a `get` performed right after a `put` of `(key, data)` at time
`time` returns the stored payload unchanged as long as `now - time < CACHE_TTL`;
once `now - time ≥ CACHE_TTL` the same `get` returns absent (exactly like a
miss) and lazily evicts the expired entry, so the key is gone from the cache
state the lookup leaves behind. -/
theorem cache_ttl_correct {α : Type} (cache : List (String × α × Int))
    (key : String) (data : α) (time now : Int) :
    (now - time < CACHE_TTL →
      (getCached (setCache cache key data time) key now).1 = some data) ∧
    (CACHE_TTL ≤ now - time →
      (getCached (setCache cache key data time) key now).1 = none ∧
      findCache ((getCached (setCache cache key data time) key now).2) key = none) := by
  constructor
  · intro h
    unfold getCached
    rw [findCache_setCache_self]
    simp [h]
  · intro h
    have h2 : ¬ now - time < CACHE_TTL := not_lt.mpr h
    unfold getCached
    rw [findCache_setCache_self]
    simp [h2, findCache_eraseCache_self]

/-! ## Transport failure classification -/

/-- Claim C8: when the upstream responds 429 the transport sleeps one fixed
5-second cooldown and then surfaces the typed rate-limit error to the caller;
it performs no silent retry (its side-effect trace contains no repeated fetch
and at most one sleep); and every other non-2xx response raises an error
carrying the HTTP status code and the response body text. -/
theorem fetchJson_error_classification (status : Nat) (body : String) :
    (status = 429 →
      handleResponse status body =
        ([RpcAction.wait 5000],
          Except.error (RpcFailure.rateLimited "Rate limited - please wait"))) ∧
    (¬ (200 ≤ status ∧ status ≤ 299) → status ≠ 429 →
      handleResponse status body =
        ([], Except.error (RpcFailure.httpError status body))) ∧
    RpcAction.refetch ∉ (handleResponse status body).1 ∧
    (handleResponse status body).1.length ≤ 1 := by
  refine ⟨?_, ?_, ?_, ?_⟩
  · intro h
    subst h
    unfold handleResponse
    norm_num
  · intro h1 h2
    unfold handleResponse
    rw [if_neg h1, if_neg h2]
  · unfold handleResponse
    split_ifs <;> simp
  · unfold handleResponse
    split_ifs <;> simp

/-! ## Degradation of the aggregate accessors -/

theorem aggregateAccessor_unavailable {α : Type} (tickResult : Option (Option Nat))
    (body : Nat → Option (List α)) (h : tickUnavailable tickResult) :
    aggregateAccessor tickResult body = [] := by
  rcases h with h | h | h <;> subst h <;> simp [aggregateAccessor]

theorem aggregateAccessor_body_none {α : Type} (t : Nat)
    (body : Nat → Option (List α)) (ht : t ≠ 0) (hb : body t = none) :
    aggregateAccessor (some (some t)) body = [] := by
  simp [aggregateAccessor, ht, hb]

/-- Claim C9: each of the five aggregate accessors (`getWhaleActivity`,
`getRecentAlerts`, `getHolderGrowth`, `getTokenDistribution`,
`getTransactionFlowHeatmap`) returns the empty list whenever the current tick
is unavailable (the tick lookup threw, the response carried no tick, or the
tick is 0, meaning "not yet known"), and also whenever its body throws during
fetching or aggregation — no error propagates to the caller. -/
theorem accessors_degrade_to_empty (tickResult : Option (Option Nat))
    (fetchTxs : Nat → Option (List Transaction)) (threshold : ℚ)
    (bodyH : Nat → Option (List HolderGrowthDataPoint))
    (bodyM : Nat → Option (List HeatmapCell)) :
    (tickUnavailable tickResult →
      getWhaleActivity tickResult fetchTxs = [] ∧
      getRecentAlerts tickResult fetchTxs threshold = [] ∧
      getHolderGrowth tickResult bodyH = [] ∧
      getTokenDistribution tickResult fetchTxs = [] ∧
      getTransactionFlowHeatmap tickResult bodyM = []) ∧
    (∀ t, tickResult = some (some t) → t ≠ 0 → fetchTxs t = none →
      getWhaleActivity tickResult fetchTxs = [] ∧
      getRecentAlerts tickResult fetchTxs threshold = [] ∧
      getTokenDistribution tickResult fetchTxs = []) ∧
    (∀ t, tickResult = some (some t) → t ≠ 0 → bodyH t = none →
      getHolderGrowth tickResult bodyH = []) ∧
    (∀ t, tickResult = some (some t) → t ≠ 0 → bodyM t = none →
      getTransactionFlowHeatmap tickResult bodyM = []) := by
  refine ⟨?_, ?_, ?_, ?_⟩
  · intro h
    exact ⟨aggregateAccessor_unavailable _ _ h, aggregateAccessor_unavailable _ _ h,
      aggregateAccessor_unavailable _ _ h, aggregateAccessor_unavailable _ _ h,
      aggregateAccessor_unavailable _ _ h⟩
  · intro t ht htz hf
    subst ht
    refine ⟨?_, ?_, ?_⟩ <;>
      exact aggregateAccessor_body_none t _ htz (by simp [hf])
  · intro t ht htz hb
    subst ht
    exact aggregateAccessor_body_none t _ htz hb
  · intro t ht htz hb
    subst ht
    exact aggregateAccessor_body_none t _ htz hb

/-! ## Lemmas about `getRecentAlerts` -/

theorem alertScan_nil (largeThreshold : ℚ) (idx : Nat) (seen : List String) :
    alertScan largeThreshold idx seen [] = [] := rfl

theorem alertScan_skip_flew (largeThreshold : ℚ) (idx : Nat) (seen : List String)
    (tx : Transaction) (rest : List Transaction) (h : tx.moneyFlew = some false) :
    alertScan largeThreshold idx seen (tx :: rest) =
      alertScan largeThreshold (idx + 1) seen rest := by
  simp [alertScan, h]

theorem alertScan_skip_amount (largeThreshold : ℚ) (idx : Nat) (seen : List String)
    (tx : Transaction) (rest : List Transaction)
    (h1 : ¬ tx.moneyFlew = some false) (h2 : convAmt tx = none) :
    alertScan largeThreshold idx seen (tx :: rest) =
      alertScan largeThreshold (idx + 1) seen rest := by
  simp [alertScan, h1, h2]

theorem alertScan_cons (largeThreshold : ℚ) (idx : Nat) (seen : List String)
    (tx : Transaction) (rest : List Transaction) (q : ℚ)
    (h1 : ¬ tx.moneyFlew = some false) (h2 : convAmt tx = some q) :
    alertScan largeThreshold idx seen (tx :: rest) =
      (if largeThreshold < q then
        [⟨idx + 1,
          if 0 < q then AlertType.whale_buy else AlertType.whale_sell,
          if largeThreshold * 2 < q then AlertImpact.High else AlertImpact.Medium,
          some q⟩]
       else []) ++
      (if tx.sourceId ∉ seen ∧ largeThreshold / 2 < q then
        [⟨idx + 100, AlertType.new_wallet, AlertImpact.Medium, none⟩]
       else []) ++
      alertScan largeThreshold (idx + 1)
        (if tx.sourceId ∉ seen ∧ largeThreshold / 2 < q then
          tx.sourceId :: seen
         else seen) rest := by
  simp [alertScan, h1, h2]

theorem alertScan_whale_sound (largeThreshold : ℚ) :
    ∀ (txs : List Transaction) (idx : Nat) (seen : List String) (a : AlertEvent),
      a ∈ alertScan largeThreshold idx seen txs →
      (a.type = AlertType.whale_buy ∨ a.type = AlertType.whale_sell) →
      ∃ i tx q, txs.get? i = some tx ∧ a.id = idx + i + 1 ∧
        tx.moneyFlew ≠ some false ∧ convAmt tx = some q ∧ largeThreshold < q ∧
        a.impact = (if largeThreshold * 2 < q then AlertImpact.High else AlertImpact.Medium) ∧
        a.amount = some q := by
  intro txs
  induction txs with
  | nil => intro idx seen a ha hty; simp [alertScan_nil] at ha
  | cons tx0 rest ih =>
      intro idx seen a ha hty
      by_cases h1 : tx0.moneyFlew = some false
      · rw [alertScan_skip_flew largeThreshold idx seen tx0 rest h1] at ha
        obtain ⟨i, tx, q, hget, hid, h3, h4, h5, h6, h7⟩ := ih (idx + 1) seen a ha hty
        exact ⟨i + 1, tx, q, by simpa using hget, by omega, h3, h4, h5, h6, h7⟩
      · cases h2 : convAmt tx0 with
        | none =>
            rw [alertScan_skip_amount largeThreshold idx seen tx0 rest h1 h2] at ha
            obtain ⟨i, tx, q, hget, hid, h3, h4, h5, h6, h7⟩ := ih (idx + 1) seen a ha hty
            exact ⟨i + 1, tx, q, by simpa using hget, by omega, h3, h4, h5, h6, h7⟩
        | some q0 =>
            rw [alertScan_cons largeThreshold idx seen tx0 rest q0 h1 h2] at ha
            rcases List.mem_append.mp ha with ha1 | harec
            · rcases List.mem_append.mp ha1 with hw | hnw
              · by_cases hTq : largeThreshold < q0
                · rw [if_pos hTq] at hw
                  have hw2 := List.mem_singleton.mp hw
                  subst hw2
                  exact ⟨0, tx0, q0, rfl, rfl, h1, h2, hTq, rfl, rfl⟩
                · rw [if_neg hTq] at hw
                  simp at hw
              · by_cases hc : tx0.sourceId ∉ seen ∧ largeThreshold / 2 < q0
                · rw [if_pos hc] at hnw
                  have hnw2 := List.mem_singleton.mp hnw
                  subst hnw2
                  rcases hty with h | h <;> simp at h
                · rw [if_neg hc] at hnw
                  simp at hnw
            · obtain ⟨i, tx, q, hget, hid, h3, h4, h5, h6, h7⟩ :=
                ih (idx + 1) _ a harec hty
              exact ⟨i + 1, tx, q, by simpa using hget, by omega, h3, h4, h5, h6, h7⟩

theorem alertScan_whale_complete (largeThreshold : ℚ) :
    ∀ (txs : List Transaction) (idx : Nat) (seen : List String) (i : Nat)
      (tx : Transaction) (q : ℚ),
      txs.get? i = some tx → tx.moneyFlew ≠ some false → convAmt tx = some q →
      largeThreshold < q →
      ∃ a ∈ alertScan largeThreshold idx seen txs, a.id = idx + i + 1 ∧
        (a.type = AlertType.whale_buy ∨ a.type = AlertType.whale_sell) ∧
        a.impact = (if largeThreshold * 2 < q then AlertImpact.High else AlertImpact.Medium) ∧
        a.amount = some q := by
  intro txs
  induction txs with
  | nil => intro idx seen i tx q hget; simp at hget
  | cons tx0 rest ih =>
      intro idx seen i tx q hget hmf hconv hT
      cases i with
      | zero =>
          have htx : tx0 = tx := by simpa using hget
          subst htx
          rw [alertScan_cons largeThreshold idx seen tx0 rest q hmf hconv]
          refine ⟨⟨idx + 1,
            if 0 < q then AlertType.whale_buy else AlertType.whale_sell,
            if largeThreshold * 2 < q then AlertImpact.High else AlertImpact.Medium,
            some q⟩, ?_, rfl, ?_, rfl, rfl⟩
          · apply List.mem_append.mpr
            left
            apply List.mem_append.mpr
            left
            rw [if_pos hT]
            exact List.mem_singleton.mpr rfl
          · by_cases h0 : 0 < q
            · left; simp [h0]
            · right; simp [h0]
      | succ j =>
          have hget' : rest.get? j = some tx := by simpa using hget
          by_cases h1 : tx0.moneyFlew = some false
          · rw [alertScan_skip_flew largeThreshold idx seen tx0 rest h1]
            obtain ⟨a, ha, hid, hrest⟩ := ih (idx + 1) seen j tx q hget' hmf hconv hT
            exact ⟨a, ha, by omega, hrest⟩
          · cases h2 : convAmt tx0 with
            | none =>
                rw [alertScan_skip_amount largeThreshold idx seen tx0 rest h1 h2]
                obtain ⟨a, ha, hid, hrest⟩ := ih (idx + 1) seen j tx q hget' hmf hconv hT
                exact ⟨a, ha, by omega, hrest⟩
            | some q0 =>
                rw [alertScan_cons largeThreshold idx seen tx0 rest q0 h1 h2]
                obtain ⟨a, ha, hid, hrest⟩ := ih (idx + 1)
                  (if tx0.sourceId ∉ seen ∧ largeThreshold / 2 < q0 then
                    tx0.sourceId :: seen else seen) j tx q hget' hmf hconv hT
                refine ⟨a, ?_, by omega, hrest⟩
                apply List.mem_append.mpr
                right
                exact ha

theorem alertScan_new_wallet_complete (largeThreshold : ℚ) :
    ∀ (txs : List Transaction) (idx : Nat) (seen : List String) (i : Nat)
      (tx : Transaction) (q : ℚ),
      txs.get? i = some tx → tx.moneyFlew ≠ some false → convAmt tx = some q →
      largeThreshold / 2 < q → tx.sourceId ∉ seen →
      (∀ j tx2 q2, j < i → txs.get? j = some tx2 → tx2.sourceId = tx.sourceId →
        tx2.moneyFlew ≠ some false → convAmt tx2 = some q2 →
        ¬ largeThreshold / 2 < q2) →
      ∃ a ∈ alertScan largeThreshold idx seen txs,
        a.type = AlertType.new_wallet ∧ a.id = idx + i + 100 := by
  intro txs
  induction txs with
  | nil => intro idx seen i tx q hget; simp at hget
  | cons tx0 rest ih =>
      intro idx seen i tx q hget hmf hconv hq hseen hfirst
      cases i with
      | zero =>
          have htx : tx0 = tx := by simpa using hget
          subst htx
          rw [alertScan_cons largeThreshold idx seen tx0 rest q hmf hconv]
          refine ⟨⟨idx + 100, AlertType.new_wallet, AlertImpact.Medium, none⟩,
            ?_, rfl, rfl⟩
          apply List.mem_append.mpr
          left
          apply List.mem_append.mpr
          right
          rw [if_pos ⟨hseen, hq⟩]
          exact List.mem_singleton.mpr rfl
      | succ j =>
          have hget' : rest.get? j = some tx := by simpa using hget
          by_cases h1 : tx0.moneyFlew = some false
          · rw [alertScan_skip_flew largeThreshold idx seen tx0 rest h1]
            have hfirst' : ∀ k tx2 q2, k < j → rest.get? k = some tx2 →
                tx2.sourceId = tx.sourceId → tx2.moneyFlew ≠ some false →
                convAmt tx2 = some q2 → ¬ largeThreshold / 2 < q2 := by
              intro k tx2 q2 hk hg hsrc hm hc
              exact hfirst (k + 1) tx2 q2 (by omega) (by simpa using hg) hsrc hm hc
            obtain ⟨a, ha, h3, h4⟩ :=
              ih (idx + 1) seen j tx q hget' hmf hconv hq hseen hfirst'
            exact ⟨a, ha, h3, by omega⟩
          · cases h2 : convAmt tx0 with
            | none =>
                rw [alertScan_skip_amount largeThreshold idx seen tx0 rest h1 h2]
                have hfirst' : ∀ k tx2 q2, k < j → rest.get? k = some tx2 →
                    tx2.sourceId = tx.sourceId → tx2.moneyFlew ≠ some false →
                    convAmt tx2 = some q2 → ¬ largeThreshold / 2 < q2 := by
                  intro k tx2 q2 hk hg hsrc hm hc
                  exact hfirst (k + 1) tx2 q2 (by omega) (by simpa using hg) hsrc hm hc
                obtain ⟨a, ha, h3, h4⟩ :=
                  ih (idx + 1) seen j tx q hget' hmf hconv hq hseen hfirst'
                exact ⟨a, ha, h3, by omega⟩
            | some q0 =>
                rw [alertScan_cons largeThreshold idx seen tx0 rest q0 h1 h2]
                have hseen2 : tx.sourceId ∉
                    (if tx0.sourceId ∉ seen ∧ largeThreshold / 2 < q0 then
                      tx0.sourceId :: seen else seen) := by
                  by_cases hc : tx0.sourceId ∉ seen ∧ largeThreshold / 2 < q0
                  · rw [if_pos hc]
                    intro hmem
                    rcases List.mem_cons.mp hmem with heq | hmem2
                    · exact hfirst 0 tx0 q0 (by omega) rfl heq.symm h1 h2 hc.2
                    · exact hseen hmem2
                  · rw [if_neg hc]
                    exact hseen
                have hfirst' : ∀ k tx2 q2, k < j → rest.get? k = some tx2 →
                    tx2.sourceId = tx.sourceId → tx2.moneyFlew ≠ some false →
                    convAmt tx2 = some q2 → ¬ largeThreshold / 2 < q2 := by
                  intro k tx2 q2 hk hg hsrc hm hc
                  exact hfirst (k + 1) tx2 q2 (by omega) (by simpa using hg) hsrc hm hc
                obtain ⟨a, ha, h3, h4⟩ :=
                  ih (idx + 1) _ j tx q hget' hmf hconv hq hseen2 hfirst'
                refine ⟨a, ?_, h3, by omega⟩
                apply List.mem_append.mpr
                right
                exact ha

theorem alertScan_no_sell (largeThreshold : ℚ) (hT : 0 < largeThreshold) :
    ∀ (txs : List Transaction) (idx : Nat) (seen : List String),
      ∀ a ∈ alertScan largeThreshold idx seen txs,
        a.type = AlertType.whale_buy ∨ a.type = AlertType.new_wallet := by
  intro txs
  induction txs with
  | nil => intro idx seen a ha; simp [alertScan_nil] at ha
  | cons tx0 rest ih =>
      intro idx seen a ha
      by_cases h1 : tx0.moneyFlew = some false
      · rw [alertScan_skip_flew largeThreshold idx seen tx0 rest h1] at ha
        exact ih (idx + 1) seen a ha
      · cases h2 : convAmt tx0 with
        | none =>
            rw [alertScan_skip_amount largeThreshold idx seen tx0 rest h1 h2] at ha
            exact ih (idx + 1) seen a ha
        | some q0 =>
            rw [alertScan_cons largeThreshold idx seen tx0 rest q0 h1 h2] at ha
            rcases List.mem_append.mp ha with ha1 | harec
            · rcases List.mem_append.mp ha1 with hw | hnw
              · by_cases hTq : largeThreshold < q0
                · rw [if_pos hTq] at hw
                  have hw2 := List.mem_singleton.mp hw
                  subst hw2
                  left
                  have h0 : 0 < q0 := lt_trans hT hTq
                  simp [h0]
                · rw [if_neg hTq] at hw
                  simp at hw
              · by_cases hc : tx0.sourceId ∉ seen ∧ largeThreshold / 2 < q0
                · rw [if_pos hc] at hnw
                  have hnw2 := List.mem_singleton.mp hnw
                  subst hnw2
                  right
                  rfl
                · rw [if_neg hc] at hnw
                  simp at hnw
            · exact ih (idx + 1) _ a harec

/-- Claim C7: for every scanned transaction window and positive threshold,
`getRecentAlerts` returns the first 8 alerts in transaction scan order (not
severity order); every settled transaction whose converted amount exceeds the
threshold yields exactly one whale alert at its scan index, with impact
`High` precisely when the amount exceeds twice the threshold and `Medium`
otherwise; every whale alert in the scan arises that way; and the first
occurrence of a source wallet above half the threshold yields a `new_wallet`
alert. -/
theorem getRecentAlerts_spec_holds (transactions : List Transaction)
    (largeThreshold : ℚ) (hT : 0 < largeThreshold) :
    alertSpec transactions largeThreshold := by
  unfold alertSpec
  refine ⟨rfl, ?_, ?_, ?_, ?_⟩
  · unfold recentAlertsCore
    rw [List.length_take]
    exact min_le_left _ _
  · intro a ha hty
    obtain ⟨i, tx, q, hget, hid, h3, h4, h5, h6, h7⟩ :=
      alertScan_whale_sound largeThreshold transactions 0 [] a ha hty
    exact ⟨i, tx, q, hget, by omega, h3, h4, h5, h6, h7⟩
  · intro i tx q hget hmf hconv hT2
    obtain ⟨a, ha, hid, hrest⟩ :=
      alertScan_whale_complete largeThreshold transactions 0 [] i tx q hget hmf hconv hT2
    exact ⟨a, ha, by omega, hrest⟩
  · intro i tx q hget hmf hconv hq hfirst
    obtain ⟨a, ha, h3, h4⟩ :=
      alertScan_new_wallet_complete largeThreshold transactions 0 [] i tx q
        hget hmf hconv hq (List.not_mem_nil _) hfirst
    exact ⟨a, ha, h3, by omega⟩

/-- Claim C7 (witness): the alert specification at the spec's own scenario —
threshold 1000 QU, one settled transfer converting to 2500 QU (a High-impact
whale alert) and one converting to 1200 QU (a Medium-impact whale alert). -/
theorem getRecentAlerts_spec_witness : alertSpec alertScenarioTxs 1000 :=
  getRecentAlerts_spec_holds alertScenarioTxs 1000 (by norm_num)

/-- Claim C10: with a positive threshold, the `whale_sell` branch of
`getRecentAlerts` is unreachable — the alert type is chosen by the test
`amount > 0`, which always holds inside the guard `amount > threshold` — so
every large-transaction alert is emitted with type `whale_buy` (the only
other type produced is `new_wallet`), and no alert of type `whale_sell` ever
appears. -/
theorem getRecentAlerts_no_whale_sell (transactions : List Transaction)
    (largeThreshold : ℚ) (hT : 0 < largeThreshold) :
    noSellAlerts transactions largeThreshold := by
  unfold noSellAlerts
  constructor
  · intro a ha
    exact alertScan_no_sell largeThreshold hT transactions 0 [] a
      ((List.take_sublist 8 _).subset ha)
  · intro a ha
    rcases alertScan_no_sell largeThreshold hT transactions 0 [] a ha with h | h <;>
      simp [h]

/-- Claim C10 (witness): the no-sell property at the concrete alert
scenario. -/
theorem getRecentAlerts_no_whale_sell_witness : noSellAlerts alertScenarioTxs 1000 :=
  getRecentAlerts_no_whale_sell alertScenarioTxs 1000 (by norm_num)

end Qubic
